import Mathlib

/-!
Shallow embedding of the vhost control-plane code (`src/vhost/src/lib.rs`)
and the libvda decoder session bridge
(`src/devices/src/virtio/video/decoder/device/vda.rs`), with theorems
checking the natural-language specification against it.

Machine integers are modelled as `Nat` with explicit bounds (`usize`/`u64`
are 64-bit, `u32` 32-bit, `u16` 16-bit); casts that can truncate are
modelled with `% 2^w` at the point of the cast.
-/

namespace Crosvm

/-- Equality of `Except` values is decidable when it is on both sides. -/
instance {ε α : Type} [DecidableEq ε] [DecidableEq α] :
    DecidableEq (Except ε α) := fun a b =>
  match a, b with
  | .error e, .error f =>
    if h : e = f then .isTrue (by rw [h])
    else .isFalse (by intro hh; cases hh; exact h rfl)
  | .ok x, .ok y =>
    if h : x = y then .isTrue (by rw [h])
    else .isFalse (by intro hh; cases hh; exact h rfl)
  | .error _, .ok _ => .isFalse (by intro h; cases h)
  | .ok _, .error _ => .isFalse (by intro h; cases h)

/-- A guest memory region: guest-physical base, byte size, and the host
virtual address it is mapped at. -/
structure GuestMemoryRegion where
  guest_base : Nat
  size : Nat
  host_address : Nat
deriving DecidableEq, Repr

/-- Modelled from the spec: `GuestMemory` (external collaborator, its source
is not in the excerpt) is "an ordered set of disjoint guest-physical memory
regions, each with a host-side mapping". -/
structure GuestMemory where
  regions : List GuestMemoryRegion
deriving DecidableEq, Repr

/-- Modelled from the spec: an address-translation failure from GuestMemory
("guest address not backed by mapped memory"). -/
inductive GuestMemoryError where
  | InvalidGuestAddress (addr : Nat)
deriving DecidableEq, Repr

/-- Modelled from the spec: an address passes the range check when it is
"within any mapped GuestMemoryRegion". -/
def address_in_range (mem : GuestMemory) (addr : Nat) : Bool :=
  mem.regions.any fun r =>
    decide (r.guest_base ≤ addr ∧ addr < r.guest_base + r.size)

/-- Modelled from the spec: guest-to-host translation "translates each guest
address to its host-mapped address via GuestMemory lookup"; an unmapped
address is a translation failure. -/
def get_host_address (mem : GuestMemory) (addr : Nat) :
    Except GuestMemoryError Nat :=
  match mem.regions.find? (fun r =>
      decide (r.guest_base ≤ addr ∧ addr < r.guest_base + r.size)) with
  | some r => .ok (r.host_address + (addr - r.guest_base))
  | none => .error (.InvalidGuestAddress addr)

/-- `usize::checked_add` on a 64-bit host: `none` on overflow. -/
def checked_add (a b : Nat) : Option Nat :=
  if a + b < 2 ^ 64 then some (a + b) else none

/-- The ring-region test repeated for each ring in `is_valid`:
`addr.checked_add(len).map_or(true, |v| !self.mem().address_in_range(v))`
(`true`, i.e. invalid, when the addition overflows). -/
def ring_out_of_range (mem : GuestMemory) (addr len : Nat) : Bool :=
  match checked_add addr len with
  | none => true
  | some v => ! address_in_range mem v

/-- `Vhost::is_valid` from `src/vhost/src/lib.rs` (lines 161-189).
Parameter order is that of the source: `desc_addr`, `avail_addr`,
`used_addr`. -/
def is_valid (mem : GuestMemory) (queue_max_size queue_size : Nat)
    (desc_addr avail_addr used_addr : Nat) : Bool :=
  let desc_table_size := 16 * queue_size
  let avail_ring_size := 6 + 2 * queue_size
  let used_ring_size := 6 + 8 * queue_size
  if queue_size > queue_max_size || queue_size == 0
      || Nat.land queue_size (queue_size - 1) != 0 then
    false
  else if ring_out_of_range mem desc_addr desc_table_size then
    false
  else if ring_out_of_range mem avail_addr avail_ring_size then
    false
  else if ring_out_of_range mem used_addr used_ring_size then
    false
  else
    true

/-- The error taxonomy of the vhost module (`enum Error`). -/
inductive Error where
  | VhostOpen
  | IoctlError
  | InvalidQueue
  | DescriptorTableAddress (e : GuestMemoryError)
  | UsedAddress (e : GuestMemoryError)
  | AvailAddress (e : GuestMemoryError)
  | LogAddress (e : GuestMemoryError)
deriving DecidableEq, Repr

/-- The kernel `vhost_vring_addr` structure, field for field. -/
structure VhostVringAddr where
  index : Nat
  flags : Nat
  desc_user_addr : Nat
  used_user_addr : Nat
  avail_user_addr : Nat
  log_guest_addr : Nat
deriving DecidableEq, Repr

/-- Observable outcome of one `set_vring_addr` call: the returned result,
the guest addresses handed to `get_host_address` (in order), and the
`vhost_vring_addr` structures handed to the kernel ioctl. -/
structure SvaOutcome where
  result : Except Error VhostVringAddr
  translations : List Nat
  ioctls : List VhostVringAddr
deriving DecidableEq, Repr

/-- `Vhost::set_vring_addr` from `src/vhost/src/lib.rs` (lines 202-256).
The call to `is_valid` passes the addresses positionally as in the source
(line 214): `(desc_addr, used_addr, avail_addr)` against a signature
declared `(desc_addr, avail_addr, used_addr)`. `log_guest_addr` is the
host pointer cast to `u64` (null for `None`). -/
def set_vring_addr (mem : GuestMemory)
    (queue_max_size queue_size queue_index flags : Nat)
    (desc_addr used_addr avail_addr : Nat) (log_addr : Option Nat) :
    SvaOutcome :=
  if ! is_valid mem queue_max_size queue_size desc_addr used_addr avail_addr
  then
    ⟨.error .InvalidQueue, [], []⟩
  else
    match get_host_address mem desc_addr with
    | .error e => ⟨.error (.DescriptorTableAddress e), [desc_addr], []⟩
    | .ok d =>
      match get_host_address mem used_addr with
      | .error e => ⟨.error (.UsedAddress e), [desc_addr, used_addr], []⟩
      | .ok u =>
        match get_host_address mem avail_addr with
        | .error e =>
          ⟨.error (.AvailAddress e), [desc_addr, used_addr, avail_addr], []⟩
        | .ok a =>
          match log_addr with
          | none =>
            let v : VhostVringAddr :=
              ⟨queue_index % 2 ^ 32, flags % 2 ^ 32, d % 2 ^ 64,
               u % 2 ^ 64, a % 2 ^ 64, 0⟩
            ⟨.ok v, [desc_addr, used_addr, avail_addr], [v]⟩
          | some la =>
            match get_host_address mem la with
            | .error e =>
              ⟨.error (.LogAddress e),
               [desc_addr, used_addr, avail_addr, la], []⟩
            | .ok l =>
              let v : VhostVringAddr :=
                ⟨queue_index % 2 ^ 32, flags % 2 ^ 32, d % 2 ^ 64,
                 u % 2 ^ 64, a % 2 ^ 64, l % 2 ^ 64⟩
              ⟨.ok v, [desc_addr, used_addr, avail_addr, la], [v]⟩

/-!  Memory table serialization (`Vhost::set_mem_table`, lines 96-134).
The buffer holds a `vhost_memory` header (`nregions: u32` and 4 bytes of
padding, 8 bytes total, per the kernel ABI) followed by one 32-byte
`vhost_memory_region` record (four `u64`s) per region, little-endian. -/

/-- The `len` low-order bytes of `n`, little-endian. -/
def bytesLE : Nat → Nat → List Nat
  | 0, _ => []
  | len + 1, n => n % 256 :: bytesLE len (n / 256)

/-- Read back a little-endian byte list as a number. -/
def natOfLE : List Nat → Nat
  | [] => 0
  | b :: bs => b + 256 * natOfLE bs

/-- One `vhost_memory_region` record:
`{guest_phys_addr, memory_size, userspace_addr, flags_padding: 0}`. -/
def encodeRegion (r : GuestMemoryRegion) : List Nat :=
  bytesLE 8 r.guest_base ++ bytesLE 8 r.size ++
    bytesLE 8 r.host_address ++ bytesLE 8 0

/-- The byte buffer built by `set_mem_table`: `vhost_memory` header with
`nregions` set (the `num_regions as u32` cast keeps the low 32 bits),
then the records in GuestMemory's enumeration order. -/
def build_mem_table (mem : GuestMemory) : List Nat :=
  bytesLE 4 mem.regions.length ++ bytesLE 4 0 ++
    (mem.regions.map encodeRegion).flatten

/-- Decode `len` bytes at offset `off` of a buffer. -/
def readLE (buf : List Nat) (off len : Nat) : Nat :=
  natOfLE ((buf.drop off).take len)

/-- The header's `nregions` field. -/
def decodeCount (buf : List Nat) : Nat := readLE buf 0 4

/-- The `i`-th record's four fields. -/
def decodeRecord (buf : List Nat) (i : Nat) : Nat × Nat × Nat × Nat :=
  (readLE buf (8 + 32 * i) 8, readLE buf (8 + 32 * i + 8) 8,
   readLE buf (8 + 32 * i + 16) 8, readLE buf (8 + 32 * i + 24) 8)

/-- A vhost session: the open device fd paired with a GuestMemory view
(the fd itself plays no role in the pure table construction). -/
structure VhostSession where
  mem : GuestMemory
deriving DecidableEq

/-- `set_mem_table` as a state-passing operation: it builds the table
buffer from the session's GuestMemory and leaves the session unchanged. -/
def set_mem_table (s : VhostSession) : List Nat × VhostSession :=
  (build_mem_table s.mem, s)

/-!  Libvda decoder session bridge
(`src/devices/src/virtio/video/decoder/device/vda.rs`).  The external
libvda session is an oracle: the success of each underlying call is an
input of the model.  Only the constructor of a read event matters to the
one-time `set_output_buffer_count` negotiation, so payloads are bundled
as plain numbers. -/

/-- `libvda::decode::Event` constructors (payloads abridged to the data
carried, as `Int` tuples; the tag is what `read_event` inspects). -/
inductive LibvdaEvent where
  | providePictureBuffers (min_num_buffers : Int) (width height : Int)
      (left top right bottom : Int)
  | pictureReady (buffer_id bitstream_id : Int) (left top right bottom : Int)
  | notifyEndOfBitstreamBuffer (bitstream_id : Int)
  | notifyError
  | resetResponse (success : Bool)
  | flushResponse (success : Bool)
deriving DecidableEq, Repr

/-- `LibvdaSession`'s own state: the `set_output_buffer_count_called`
`Cell<bool>` flag, initially `false`. -/
structure LibvdaSession where
  set_output_buffer_count_called : Bool
deriving DecidableEq, Repr

/-- `LibvdaSession::new`: the flag starts at `Default::default() = false`. -/
def LibvdaSession.new : LibvdaSession := ⟨false⟩

/-- `LibvdaSession::use_output_buffer` (lines 165-190).  `countOk` is the
oracle outcome of `session.set_output_buffer_count` (consulted only when
the call is issued), `formatOk` whether `PixelFormat::try_from(format)`
succeeds, `bufOk` the oracle outcome of `session.use_output_buffer`.
Returns `(state, issued set_output_buffer_count?, call succeeded?)`. -/
def use_output_buffer (countOk formatOk bufOk : Bool)
    (s : LibvdaSession) : LibvdaSession × Bool × Bool :=
  if ! s.set_output_buffer_count_called then
    if ! countOk then
      (s, true, false)
    else
      let s' : LibvdaSession := ⟨true⟩
      if ! formatOk then (s', true, false) else (s', true, bufOk)
  else
    if ! formatOk then (s, false, false) else (s, false, bufOk)

/-- `LibvdaSession::read_event` (lines 196-204): a successfully read
`ProvidePictureBuffers` event resets the negotiation flag; any other
event, or a read failure, leaves it unchanged. -/
def read_event (ev : Except Unit LibvdaEvent) (s : LibvdaSession) :
    LibvdaSession :=
  match ev with
  | .ok (.providePictureBuffers _ _ _ _ _ _ _) => ⟨false⟩
  | _ => s

/-- One step of the session driver: a `use_output_buffer` call (with its
oracle outcomes) or a `read_event` call (with the event the pipe
yields).  `decode`/`flush`/`reset`/`reuse_output_buffer` never touch the
negotiation flag and are represented by `other`. -/
inductive SessionOp where
  | useBuf (countOk formatOk bufOk : Bool)
  | readEv (ev : Except Unit LibvdaEvent)
  | other
deriving DecidableEq, Repr

/-- Run a list of session operations; also record, per operation, whether
it issued the underlying `set_output_buffer_count` call. -/
def runOps : List SessionOp → LibvdaSession → LibvdaSession × List Bool
  | [], s => (s, [])
  | .useBuf c f b :: ops, s =>
    let r := use_output_buffer c f b s
    let rest := runOps ops r.1
    (rest.1, r.2.1 :: rest.2)
  | .readEv ev :: ops, s =>
    let rest := runOps ops (read_event ev s)
    (rest.1, false :: rest.2)
  | .other :: ops, s =>
    let rest := runOps ops s
    (rest.1, false :: rest.2)

/-- Does this operation read a `ProvidePictureBuffers` event? -/
def isPPBRead : SessionOp → Bool
  | .readEv (.ok (.providePictureBuffers _ _ _ _ _ _ _)) => true
  | _ => false

/-- Is this operation a `use_output_buffer` call? -/
def isUseBuf : SessionOp → Bool
  | .useBuf _ _ _ => true
  | _ => false

/-- Every `use_output_buffer` operation in the list has a succeeding
`set_output_buffer_count` oracle outcome. -/
def allCountsOk (ops : List SessionOp) : Bool :=
  ops.all fun op =>
    match op with
    | .useBuf c _ _ => c
    | _ => true

/-- `u16::checked_sub`: `none` on underflow. -/
def checked_sub_u16 (a b : Nat) : Option Nat :=
  if b ≤ a then some (a - b) else none

/-- `is_valid` with the `u16` subtraction `queue_size - 1` made explicitly
fallible, and the `||` chain short-circuiting as in Rust: the subtraction
is only reached when `queue_size > queue_max_size` and `queue_size == 0`
were both false. -/
def is_valid_checked (mem : GuestMemory) (queue_max_size queue_size : Nat)
    (desc_addr avail_addr used_addr : Nat) : Option Bool :=
  if queue_size > queue_max_size then some false
  else if queue_size == 0 then some false
  else
    match checked_sub_u16 queue_size 1 with
    | none => none
    | some p =>
      if Nat.land queue_size p != 0 then some false
      else if ring_out_of_range mem desc_addr (16 * queue_size) then
        some false
      else if ring_out_of_range mem avail_addr (6 + 2 * queue_size) then
        some false
      else if ring_out_of_range mem used_addr (6 + 8 * queue_size) then
        some false
      else
        some true

/-- A single large guest memory region, ample for every ring of a
`u16`-sized queue. -/
def memA : GuestMemory := ⟨[⟨0, 0x200000, 0x10000⟩]⟩

/-- Two mapped regions with an unmapped hole `[0x100, 0x200)` between
them, as in the spec's two-region test map with the second region moved
up to create a gap. -/
def memGap : GuestMemory := ⟨[⟨0, 0x100, 0x10000⟩, ⟨0x200, 0x200, 0x20000⟩]⟩

/-- The memory map of the source's own unit tests:
`[(0x0, 0x100), (0x100, 0x400)]`. -/
def memTest : GuestMemory := ⟨[⟨0, 0x100, 0x8000⟩, ⟨0x100, 0x400, 0x9000⟩]⟩

/-- The fields of a region fit their Rust types (`u64`/`usize`, 64-bit). -/
def regionWF (r : GuestMemoryRegion) : Prop :=
  r.guest_base < 2 ^ 64 ∧ r.size < 2 ^ 64 ∧ r.host_address < 2 ^ 64

instance (r : GuestMemoryRegion) : Decidable (regionWF r) := by
  unfold regionWF
  infer_instance

/-- A single guest memory region `[0, 0x1000)` mapped at host `0x7000`. -/
def memOne : GuestMemory := ⟨[⟨0, 0x1000, 0x7000⟩]⟩

/-!  Helper lemmas. -/

theorem land_self (n : Nat) : n &&& n = n := by
  apply Nat.eq_of_testBit_eq
  intro i
  rw [Nat.testBit_land, Bool.and_self]

/-- The `size & (size - 1) == 0` idiom detects exactly the powers of two
among the nonzero numbers. -/
theorem land_pred_eq_zero_iff :
    ∀ qs : Nat, qs ≠ 0 → (qs &&& (qs - 1) = 0 ↔ ∃ k, qs = 2 ^ k) := by
  intro qs
  induction qs using Nat.strong_induction_on with
  | _ qs ih =>
    intro hqs
    rcases Nat.even_or_odd qs with he | ho
    · obtain ⟨m, hm⟩ := he
      have hq2 : qs = 2 * m := by omega
      have hm0 : m ≠ 0 := by omega
      have hpred : qs - 1 = 2 * (m - 1) + 1 := by omega
      have hland : qs &&& (qs - 1) = Nat.bit false (m &&& (m - 1)) := by
        rw [hpred, hq2]
        show Nat.bit false m &&& Nat.bit true (m - 1) = _
        rw [Nat.land_bit]
        rfl
      have hiff := ih m (by omega) hm0
      constructor
      · intro h0
        rw [hland, Nat.bit_eq_zero_iff] at h0
        obtain ⟨k, hk⟩ := hiff.mp h0.1
        exact ⟨k + 1, by rw [hq2, hk, pow_succ]; ring⟩
      · rintro ⟨k, hk⟩
        rcases k with _ | j
        · omega
        · have hmval : m = 2 ^ j := by
            have : 2 * m = 2 * 2 ^ j := by rw [← hq2, hk, pow_succ]; ring
            omega
          have h0 : m &&& (m - 1) = 0 := hiff.mpr ⟨j, hmval⟩
          rw [hland, h0, Nat.bit_eq_zero_iff]
          exact ⟨rfl, rfl⟩
    · obtain ⟨m, hm⟩ := ho
      rcases Nat.eq_zero_or_pos m with hm0 | hm0
      · subst hm0
        have h1 : qs = 1 := by omega
        subst h1
        simp
        exact ⟨0, rfl⟩
      · have hpred : qs - 1 = 2 * m := by omega
        have hland : qs &&& (qs - 1) = Nat.bit false m := by
          rw [hpred, hm]
          show Nat.bit true m &&& Nat.bit false m = _
          rw [Nat.land_bit, land_self]
          rfl
        constructor
        · intro h0
          rw [hland, Nat.bit_eq_zero_iff] at h0
          omega
        · rintro ⟨k, hk⟩
          exfalso
          rcases k with _ | j
          · omega
          · have : qs = 2 * 2 ^ j := by rw [hk, pow_succ]; ring
            omega

/-- A successful `checked_add`. -/
theorem checked_add_lt {a b : Nat} (h : a + b < 2 ^ 64) :
    checked_add a b = some (a + b) := by
  unfold checked_add
  rw [if_pos h]

/-- An overflowing `checked_add`. -/
theorem checked_add_ge {a b : Nat} (h : 2 ^ 64 ≤ a + b) :
    checked_add a b = none := by
  unfold checked_add
  rw [if_neg (by omega)]

/-- A ring whose end address is mapped passes the region test. -/
theorem ring_out_of_range_false {mem : GuestMemory} {addr len : Nat}
    (h1 : addr + len < 2 ^ 64)
    (h2 : address_in_range mem (addr + len) = true) :
    ring_out_of_range mem addr len = false := by
  unfold ring_out_of_range
  rw [checked_add_lt h1]
  show (! address_in_range mem (addr + len)) = false
  rw [h2]
  rfl

/-- An overflowing ring fails the region test. -/
theorem ring_out_of_range_overflow {mem : GuestMemory} {addr len : Nat}
    (h : 2 ^ 64 ≤ addr + len) :
    ring_out_of_range mem addr len = true := by
  unfold ring_out_of_range
  rw [checked_add_ge h]

/-!  Claim theorems: `is_valid`. -/

/-- C9: the power-of-two subexpression `queue_size & (queue_size - 1)` is
only evaluated under the short-circuited guard `queue_size != 0`, so the
`u16` subtraction never underflows: the explicitly checked variant of
`is_valid` never returns `none` and agrees with `is_valid` everywhere,
i.e. `is_valid` is a total function of its inputs. -/
theorem is_valid_checked_total (mem : GuestMemory)
    (queue_max_size queue_size desc_addr avail_addr used_addr : Nat) :
    is_valid_checked mem queue_max_size queue_size
        desc_addr avail_addr used_addr =
      some (is_valid mem queue_max_size queue_size
        desc_addr avail_addr used_addr) := by
  unfold is_valid is_valid_checked checked_sub_u16
  by_cases h1 : queue_size > queue_max_size
  · simp [h1]
  · by_cases h2 : queue_size = 0
    · subst h2
      simp [h1]
    · have hs : 1 ≤ queue_size := Nat.one_le_iff_ne_zero.mpr h2
      by_cases h3 : Nat.land queue_size (queue_size - 1) != 0
      · simp [h1, h2, hs, h3]
      · simp [h1, h2, hs, h3]
        generalize ring_out_of_range mem desc_addr (16 * queue_size) = b1
        generalize ring_out_of_range mem avail_addr (6 + 2 * queue_size) = b2
        generalize ring_out_of_range mem used_addr (6 + 8 * queue_size) = b3
        cases b1 <;> cases b2 <;> cases b3 <;> rfl


/-- `is_valid` is false whenever the descriptor-table region test fails. -/
theorem is_valid_false_of_desc {mem : GuestMemory} {qmax qs d a u : Nat}
    (h : ring_out_of_range mem d (16 * qs) = true) :
    is_valid mem qmax qs d a u = false := by
  simp only [is_valid, h]
  cases hc : (decide (qs > qmax) || (qs == 0)
      || (Nat.land qs (qs - 1) != 0)) <;> simp

/-- `is_valid` is false whenever the available-ring region test fails. -/
theorem is_valid_false_of_avail {mem : GuestMemory} {qmax qs d a u : Nat}
    (h : ring_out_of_range mem a (6 + 2 * qs) = true) :
    is_valid mem qmax qs d a u = false := by
  simp only [is_valid, h]
  cases hc : (decide (qs > qmax) || (qs == 0)
      || (Nat.land qs (qs - 1) != 0)) <;>
    cases hb : ring_out_of_range mem d (16 * qs) <;> simp

/-- `is_valid` is false whenever the used-ring region test fails. -/
theorem is_valid_false_of_used {mem : GuestMemory} {qmax qs d a u : Nat}
    (h : ring_out_of_range mem u (6 + 8 * qs) = true) :
    is_valid mem qmax qs d a u = false := by
  simp only [is_valid, h]
  cases hc : (decide (qs > qmax) || (qs == 0)
      || (Nat.land qs (qs - 1) != 0)) <;>
    cases hb : ring_out_of_range mem d (16 * qs) <;>
      cases hb2 : ring_out_of_range mem a (6 + 2 * qs) <;> simp

/-- C3: with guest memory backing all three ring regions (and `u16`-sized
inputs), `is_valid` is true exactly when the queue size is a nonzero
power of two no larger than the maximum; in particular, over an ample
memory it is false for sizes 0, 3, 5, 17 and true for 1, 2, 4, 256. -/
theorem is_valid_iff_pow2 :
    (∀ (mem : GuestMemory) (qmax qs d a u : Nat),
      qs < 2 ^ 16 → qmax < 2 ^ 16 →
      d + 16 * qs < 2 ^ 64 → address_in_range mem (d + 16 * qs) = true →
      a + (6 + 2 * qs) < 2 ^ 64 →
      address_in_range mem (a + (6 + 2 * qs)) = true →
      u + (6 + 8 * qs) < 2 ^ 64 →
      address_in_range mem (u + (6 + 8 * qs)) = true →
      (is_valid mem qmax qs d a u = true ↔
        qs ≠ 0 ∧ qs ≤ qmax ∧ ∃ k, qs = 2 ^ k)) ∧
    (is_valid memA 256 0 0 0 0 = false ∧ is_valid memA 256 3 0 0 0 = false ∧
     is_valid memA 256 5 0 0 0 = false ∧
     is_valid memA 256 17 0 0 0 = false ∧
     is_valid memA 256 1 0 0 0 = true ∧ is_valid memA 256 2 0 0 0 = true ∧
     is_valid memA 256 4 0 0 0 = true ∧
     is_valid memA 256 256 0 0 0 = true) := by
  constructor
  · intro mem qmax qs d a u h16 hmax16 hd1 hd2 ha1 ha2 hu1 hu2
    have hchain : is_valid mem qmax qs d a u =
        !(decide (qs > qmax) || (qs == 0)
          || (Nat.land qs (qs - 1) != 0)) := by
      simp only [is_valid, ring_out_of_range_false hd1 hd2,
        ring_out_of_range_false ha1 ha2, ring_out_of_range_false hu1 hu2]
      cases hc : (decide (qs > qmax) || (qs == 0)
          || (Nat.land qs (qs - 1) != 0)) <;> simp
    rw [hchain]
    simp only [Bool.not_eq_true', Bool.or_eq_false_iff, decide_eq_false_iff_not,
      beq_eq_false_iff_ne, ne_eq, bne_eq_false_iff_eq]
    constructor
    · rintro ⟨⟨hh1, hh2⟩, hh3⟩
      exact ⟨hh2, by omega, (land_pred_eq_zero_iff qs hh2).mp hh3⟩
    · rintro ⟨hh1, hh2, hh3⟩
      exact ⟨⟨by omega, hh1⟩, (land_pred_eq_zero_iff qs hh1).mpr hh3⟩
  · refine ⟨by decide, by decide, by decide, by decide,
      by decide, by decide, by decide, by decide⟩

/-- C3 witness: the equivalence applied at queue size 4 over the ample
memory. -/
theorem is_valid_iff_pow2_witness :
    is_valid memA 256 4 0 0 0 = true ↔
      (4 ≠ 0 ∧ 4 ≤ 256 ∧ ∃ k, (4 : Nat) = 2 ^ k) :=
  is_valid_iff_pow2.1 memA 256 4 0 0 0 (by decide) (by decide) (by decide)
    (by decide) (by decide) (by decide) (by decide) (by decide)

/-- C4: for any ring address whose address-plus-length computation
overflows the 64-bit address type, `is_valid` returns false regardless of
the memory map, for every valid (nonzero, bounded, power-of-two) queue
size. -/
theorem is_valid_overflow_false :
    ∀ (mem : GuestMemory) (qmax qs d a u : Nat),
      qs ≠ 0 → qs ≤ qmax → (∃ k, qs = 2 ^ k) →
      ((2 ^ 64 ≤ d + 16 * qs → is_valid mem qmax qs d a u = false) ∧
       (2 ^ 64 ≤ a + (6 + 2 * qs) → is_valid mem qmax qs d a u = false) ∧
       (2 ^ 64 ≤ u + (6 + 8 * qs) → is_valid mem qmax qs d a u = false)) := by
  intro mem qmax qs d a u _ _ _
  exact ⟨fun hov => is_valid_false_of_desc (ring_out_of_range_overflow hov),
    fun hov => is_valid_false_of_avail (ring_out_of_range_overflow hov),
    fun hov => is_valid_false_of_used (ring_out_of_range_overflow hov)⟩

/-- C4 witness: a used-ring address at the top of the address space
overflows and is rejected even over the ample memory. -/
theorem is_valid_overflow_false_witness :
    is_valid memA 1 1 0 0 (2 ^ 64 - 14) = false :=
  (is_valid_overflow_false memA 1 1 0 0 (2 ^ 64 - 14) (by decide)
    (by decide) ⟨0, rfl⟩).2.2 (by norm_num)

/-- C1: `set_vring_addr` does not check each ring with its own size
formula: because line 214 passes `(desc, used, avail)` to `is_valid`
declared `(desc, avail, used)`, the used ring is checked with the
available-ring formula and vice versa.  With a one-page memory and queue
size 1, a used ring at `0xFF6` extends to `0x1004`, beyond guest memory
(third conjunct), and `is_valid` under the claim's own association of
formulas rejects it (second conjunct), yet the call proceeds and issues
the kernel ioctl (first conjunct). -/
theorem set_vring_addr_used_avail_swapped :
    (set_vring_addr memOne 256 1 0 0 0 0xFF6 0x10 none =
      ⟨.ok ⟨0, 0, 0x7000, 0x7FF6, 0x7010, 0⟩, [0, 0xFF6, 0x10],
       [⟨0, 0, 0x7000, 0x7FF6, 0x7010, 0⟩]⟩) ∧
    is_valid memOne 256 1 0 0x10 0xFF6 = false ∧
    address_in_range memOne (0xFF6 + (6 + 8 * 1)) = false := by
  refine ⟨by decide, by decide, by decide⟩

/-- C2: whenever the arguments fail the validity check that
`set_vring_addr` performs, the call returns `InvalidQueue`, issues no
kernel ioctl, and attempts no guest-to-host translation. -/
theorem set_vring_addr_invalid_queue (mem : GuestMemory)
    (qmax qs qi fl d u a : Nat) (la : Option Nat)
    (h : is_valid mem qmax qs d u a = false) :
    set_vring_addr mem qmax qs qi fl d u a la =
      ⟨.error .InvalidQueue, [], []⟩ := by
  simp [set_vring_addr, h]

/-- C2 witness: queue size 0 is rejected with `InvalidQueue` before any
translation or ioctl. -/
theorem set_vring_addr_invalid_queue_witness :
    is_valid memA 256 0 0 0 0 = false ∧
    set_vring_addr memA 256 0 0 0 0 0 0 none =
      ⟨.error .InvalidQueue, [], []⟩ :=
  ⟨by decide, set_vring_addr_invalid_queue memA 256 0 0 0 0 0 0 none
    (by decide)⟩

/-- C7: after validation passes, a translation failure of the descriptor
table, used ring, available ring, or log address yields respectively the
`DescriptorTableAddress`, `UsedAddress`, `AvailAddress`, or `LogAddress`
error wrapping that failure, and no kernel ioctl is issued in any of
these cases. -/
theorem set_vring_addr_translation_errors (mem : GuestMemory)
    (qmax qs qi fl d u a la : Nat) (lo : Option Nat)
    (hv : is_valid mem qmax qs d u a = true) :
    (∀ e, get_host_address mem d = .error e →
      set_vring_addr mem qmax qs qi fl d u a lo =
        ⟨.error (.DescriptorTableAddress e), [d], []⟩) ∧
    (∀ hd e, get_host_address mem d = .ok hd →
      get_host_address mem u = .error e →
      set_vring_addr mem qmax qs qi fl d u a lo =
        ⟨.error (.UsedAddress e), [d, u], []⟩) ∧
    (∀ hd hu e, get_host_address mem d = .ok hd →
      get_host_address mem u = .ok hu →
      get_host_address mem a = .error e →
      set_vring_addr mem qmax qs qi fl d u a lo =
        ⟨.error (.AvailAddress e), [d, u, a], []⟩) ∧
    (∀ hd hu ha e, get_host_address mem d = .ok hd →
      get_host_address mem u = .ok hu →
      get_host_address mem a = .ok ha →
      get_host_address mem la = .error e →
      set_vring_addr mem qmax qs qi fl d u a (some la) =
        ⟨.error (.LogAddress e), [d, u, a, la], []⟩) := by
  refine ⟨fun e he => ?_, fun hd e h1 he => ?_, fun hd hu e h1 h2 he => ?_,
    fun hd hu ha e h1 h2 h3 he => ?_⟩
  · simp [set_vring_addr, hv, he]
  · simp [set_vring_addr, hv, h1, he]
  · simp [set_vring_addr, hv, h1, h2, he]
  · simp [set_vring_addr, hv, h1, h2, h3, he]

/-- C7 witness: over the gapped memory, each of the four translation
failures is exercised at queue size 1 (the unmapped address `0x1F8` ends
its ring inside the second region, so validation passes, but the base
address itself is unmapped). -/
theorem set_vring_addr_translation_errors_witness :
    (set_vring_addr memGap 256 1 0 0 0x1F8 0 0 none =
      ⟨.error (.DescriptorTableAddress (.InvalidGuestAddress 0x1F8)),
       [0x1F8], []⟩) ∧
    (set_vring_addr memGap 256 1 0 0 0 0x1F8 0 none =
      ⟨.error (.UsedAddress (.InvalidGuestAddress 0x1F8)),
       [0, 0x1F8], []⟩) ∧
    (set_vring_addr memGap 256 1 0 0 0 0 0x1F8 none =
      ⟨.error (.AvailAddress (.InvalidGuestAddress 0x1F8)),
       [0, 0, 0x1F8], []⟩) ∧
    (set_vring_addr memGap 256 1 0 0 0 0 0 (some 0x1F8) =
      ⟨.error (.LogAddress (.InvalidGuestAddress 0x1F8)),
       [0, 0, 0, 0x1F8], []⟩) :=
  ⟨(set_vring_addr_translation_errors memGap 256 1 0 0 0x1F8 0 0 0 none
      (by decide)).1 (.InvalidGuestAddress 0x1F8) (by decide),
   (set_vring_addr_translation_errors memGap 256 1 0 0 0 0x1F8 0 0 none
      (by decide)).2.1 0x10000 (.InvalidGuestAddress 0x1F8)
      (by decide) (by decide),
   (set_vring_addr_translation_errors memGap 256 1 0 0 0 0 0x1F8 0 none
      (by decide)).2.2.1 0x10000 0x10000 (.InvalidGuestAddress 0x1F8)
      (by decide) (by decide) (by decide),
   (set_vring_addr_translation_errors memGap 256 1 0 0 0 0 0 0x1F8 none
      (by decide)).2.2.2 0x10000 0x10000 0x10000 (.InvalidGuestAddress 0x1F8)
      (by decide) (by decide) (by decide) (by decide)⟩

/-- C10: with `log_addr = None`, once validation and the three ring
translations succeed the call returns successfully (so never the
`LogAddress` error) and the `vhost_vring_addr` passed to the kernel has
`log_guest_addr = 0`; `is_valid` takes no log address at all, so the log
address is never range- or overflow-validated. -/
theorem set_vring_addr_log_none (mem : GuestMemory)
    (qmax qs qi fl d u a hd hu ha : Nat)
    (hv : is_valid mem qmax qs d u a = true)
    (h1 : get_host_address mem d = .ok hd)
    (h2 : get_host_address mem u = .ok hu)
    (h3 : get_host_address mem a = .ok ha) :
    set_vring_addr mem qmax qs qi fl d u a none =
      ⟨.ok ⟨qi % 2 ^ 32, fl % 2 ^ 32, hd % 2 ^ 64, hu % 2 ^ 64,
        ha % 2 ^ 64, 0⟩,
       [d, u, a],
       [⟨qi % 2 ^ 32, fl % 2 ^ 32, hd % 2 ^ 64, hu % 2 ^ 64,
        ha % 2 ^ 64, 0⟩]⟩ := by
  simp [set_vring_addr, hv, h1, h2, h3]

/-- C10 witness: a fully valid queue over the ample memory with no log
address yields a successful ioctl whose `log_guest_addr` is 0. -/
theorem set_vring_addr_log_none_witness :
    set_vring_addr memA 256 1 0 0 0 0 0 none =
      ⟨.ok ⟨0, 0, 0x10000, 0x10000, 0x10000, 0⟩, [0, 0, 0],
       [⟨0, 0, 0x10000, 0x10000, 0x10000, 0⟩]⟩ :=
  set_vring_addr_log_none memA 256 1 0 0 0 0 0 0x10000 0x10000 0x10000
    (by decide) (by decide) (by decide) (by decide)

/-!  Byte-level lemmas for the memory table. -/

theorem bytesLE_length (len n : Nat) : (bytesLE len n).length = len := by
  induction len generalizing n with
  | zero => rfl
  | succ k ih => simp [bytesLE, ih]

theorem natOfLE_bytesLE (len n : Nat) :
    natOfLE (bytesLE len n) = n % 256 ^ len := by
  induction len generalizing n with
  | zero => simp [bytesLE, natOfLE, Nat.mod_one]
  | succ k ih =>
    rw [bytesLE, natOfLE, ih, pow_succ', Nat.mod_mul]

theorem take_append_len {l1 : List Nat} (l2 : List Nat) {k : Nat}
    (h : l1.length = k) : (l1 ++ l2).take k = l1 := by
  subst h
  exact List.take_left l1 l2

theorem drop_append_len {l1 : List Nat} (l2 : List Nat) {k : Nat}
    (h : l1.length = k) : (l1 ++ l2).drop k = l2 := by
  subst h
  exact List.drop_left l1 l2

theorem drop_add (l : List Nat) (n m : Nat) :
    l.drop (n + m) = (l.drop n).drop m := by
  rw [List.drop_drop, Nat.add_comm]

theorem encodeRegion_length (r : GuestMemoryRegion) :
    (encodeRegion r).length = 32 := by
  simp [encodeRegion, bytesLE_length]

theorem flatten_map_encode_length (l : List GuestMemoryRegion) :
    ((l.map encodeRegion).flatten).length = 32 * l.length := by
  induction l with
  | nil => rfl
  | cons r t ih =>
    simp [List.flatten, ih, encodeRegion_length, Nat.mul_add, Nat.mul_one,
      Nat.add_comm]

theorem build_mem_table_length (mem : GuestMemory) :
    (build_mem_table mem).length = 8 + 32 * mem.regions.length := by
  unfold build_mem_table
  rw [List.length_append, List.length_append, bytesLE_length, bytesLE_length,
    flatten_map_encode_length]

theorem decodeCount_build (mem : GuestMemory) :
    decodeCount (build_mem_table mem) = mem.regions.length % 2 ^ 32 := by
  unfold decodeCount readLE build_mem_table
  rw [List.drop_zero, List.append_assoc,
    take_append_len _ (bytesLE_length 4 _), natOfLE_bytesLE]
  norm_num

theorem build_drop_header (mem : GuestMemory) :
    (build_mem_table mem).drop 8 = (mem.regions.map encodeRegion).flatten := by
  unfold build_mem_table
  refine drop_append_len _ ?_
  simp [bytesLE_length]

theorem flatten_drop_32 :
    ∀ (l : List GuestMemoryRegion) (i : Nat) (h : i < l.length),
      ((l.map encodeRegion).flatten).drop (32 * i) =
        encodeRegion (l.get ⟨i, h⟩) ++
          ((l.drop (i + 1)).map encodeRegion).flatten := by
  intro l
  induction l with
  | nil => intro i h; simp at h
  | cons r t ih =>
    intro i h
    cases i with
    | zero => simp
    | succ j =>
      have h32 : 32 * (j + 1) = 32 + 32 * j := by ring
      rw [h32]
      have hjl : j < t.length := by simpa using h
      calc (((r :: t).map encodeRegion).flatten).drop (32 + 32 * j)
          = ((encodeRegion r ++ (t.map encodeRegion).flatten).drop 32).drop
              (32 * j) := by
            rw [← drop_add]
            rfl
        _ = ((t.map encodeRegion).flatten).drop (32 * j) := by
            rw [drop_append_len _ (encodeRegion_length r)]
        _ = encodeRegion (t.get ⟨j, hjl⟩) ++
              ((t.drop (j + 1)).map encodeRegion).flatten := ih j hjl

theorem natOfLE_chunk {x : Nat} (rest : List Nat) (h : x < 2 ^ 64) :
    natOfLE ((bytesLE 8 x ++ rest).take 8) = x := by
  rw [take_append_len _ (bytesLE_length 8 x), natOfLE_bytesLE]
  have h256 : (256 : Nat) ^ 8 = 2 ^ 64 := by norm_num
  rw [h256]
  exact Nat.mod_eq_of_lt h

theorem drop_chunk (x : Nat) (rest : List Nat) :
    (bytesLE 8 x ++ rest).drop 8 = rest :=
  drop_append_len _ (bytesLE_length 8 x)

theorem decodeRecord_build (mem : GuestMemory) (i : Nat)
    (hi : i < mem.regions.length)
    (hwf : regionWF (mem.regions.get ⟨i, hi⟩)) :
    decodeRecord (build_mem_table mem) i =
      ((mem.regions.get ⟨i, hi⟩).guest_base,
       (mem.regions.get ⟨i, hi⟩).size,
       (mem.regions.get ⟨i, hi⟩).host_address, 0) := by
  obtain ⟨hw1, hw2, hw3⟩ := hwf
  have hdrop : (build_mem_table mem).drop (8 + 32 * i) =
      bytesLE 8 (mem.regions.get ⟨i, hi⟩).guest_base ++
        (bytesLE 8 (mem.regions.get ⟨i, hi⟩).size ++
          (bytesLE 8 (mem.regions.get ⟨i, hi⟩).host_address ++
            (bytesLE 8 0 ++
              ((mem.regions.drop (i + 1)).map encodeRegion).flatten))) := by
    rw [drop_add, build_drop_header, flatten_drop_32 mem.regions i hi,
      encodeRegion]
    simp [List.append_assoc]
  have h1 : (build_mem_table mem).drop (8 + 32 * i + 8) =
      bytesLE 8 (mem.regions.get ⟨i, hi⟩).size ++
        (bytesLE 8 (mem.regions.get ⟨i, hi⟩).host_address ++
          (bytesLE 8 0 ++
            ((mem.regions.drop (i + 1)).map encodeRegion).flatten)) := by
    rw [show 8 + 32 * i + 8 = (8 + 32 * i) + 8 from rfl, drop_add, hdrop,
      drop_chunk]
  have h2 : (build_mem_table mem).drop (8 + 32 * i + 16) =
      bytesLE 8 (mem.regions.get ⟨i, hi⟩).host_address ++
        (bytesLE 8 0 ++
          ((mem.regions.drop (i + 1)).map encodeRegion).flatten) := by
    rw [show 8 + 32 * i + 16 = (8 + 32 * i + 8) + 8 by ring, drop_add, h1,
      drop_chunk]
  have h3 : (build_mem_table mem).drop (8 + 32 * i + 24) =
      bytesLE 8 0 ++ ((mem.regions.drop (i + 1)).map encodeRegion).flatten := by
    rw [show 8 + 32 * i + 24 = (8 + 32 * i + 16) + 8 by ring, drop_add, h2,
      drop_chunk]
  unfold decodeRecord readLE
  rw [hdrop, h1, h2, h3, natOfLE_chunk _ hw1, natOfLE_chunk _ hw2,
    natOfLE_chunk _ hw3, natOfLE_chunk _ (by norm_num : (0 : Nat) < 2 ^ 64)]

/-- C5 (amended): for every GuestMemory with `n` regions (including
`n = 0`, and with region fields fitting their 64-bit types),
`set_mem_table` builds a byte buffer of length exactly
`8 + 32 * n` (header size plus `n` times record size), whose header
count field equals `n mod 2^32` (the `num_regions as u32` cast), and
whose `i`-th record carries
`(guest_phys_addr, memory_size, userspace_addr, 0)` equal to the `i`-th
region in enumeration order. -/
theorem set_mem_table_layout (mem : GuestMemory)
    (hwf : ∀ r ∈ mem.regions, regionWF r) :
    ((set_mem_table ⟨mem⟩).1.length = 8 + 32 * mem.regions.length) ∧
    (decodeCount (set_mem_table ⟨mem⟩).1 = mem.regions.length % 2 ^ 32) ∧
    (∀ i (hi : i < mem.regions.length),
      decodeRecord (set_mem_table ⟨mem⟩).1 i =
        ((mem.regions.get ⟨i, hi⟩).guest_base,
         (mem.regions.get ⟨i, hi⟩).size,
         (mem.regions.get ⟨i, hi⟩).host_address, 0)) := by
  refine ⟨build_mem_table_length mem, decodeCount_build mem, ?_⟩
  intro i hi
  exact decodeRecord_build mem i hi (hwf _ (List.get_mem mem.regions i hi))

/-- C5 counterexample: at 2^32 regions, the header's `u32` count field
wraps to 0 and no longer equals the region count, refuting the claim
that the count field always equals `n`. -/
theorem set_mem_table_count_wraps :
    decodeCount (set_mem_table ⟨⟨List.replicate (2 ^ 32) ⟨0, 0, 0⟩⟩⟩).1 ≠
      (⟨List.replicate (2 ^ 32) ⟨0, 0, 0⟩⟩ : GuestMemory).regions.length := by
  show decodeCount (build_mem_table ⟨List.replicate (2 ^ 32) ⟨0, 0, 0⟩⟩) ≠
      (⟨List.replicate (2 ^ 32) ⟨0, 0, 0⟩⟩ : GuestMemory).regions.length
  rw [decodeCount_build,
    show (⟨List.replicate (2 ^ 32) ⟨0, 0, 0⟩⟩ : GuestMemory).regions =
      List.replicate (2 ^ 32) ⟨0, 0, 0⟩ from rfl, List.length_replicate,
    Nat.mod_self]
  exact Nat.ne_of_lt (by positivity)

/-- C5 witness: the spec's two-region memory map yields a 72-byte buffer
declaring count 2 whose records match the regions exactly. -/
theorem set_mem_table_layout_witness :
    (set_mem_table ⟨memTest⟩).1.length = 8 + 32 * memTest.regions.length ∧
    decodeCount (set_mem_table ⟨memTest⟩).1 = memTest.regions.length % 2 ^ 32 ∧
    decodeRecord (set_mem_table ⟨memTest⟩).1 0 = (0, 0x100, 0x8000, 0) ∧
    decodeRecord (set_mem_table ⟨memTest⟩).1 1 = (0x100, 0x400, 0x9000, 0) :=
  have h := set_mem_table_layout memTest (by decide)
  ⟨h.1, h.2.1, h.2.2 0 (by decide), h.2.2 1 (by decide)⟩

/-- C6: the memory table construction is a deterministic, idempotent
function of the GuestMemory view: two successive `set_mem_table`
invocations build byte-identical buffers and leave the session
unchanged. -/
theorem set_mem_table_idempotent (s : VhostSession) :
    (set_mem_table s).1 = (set_mem_table (set_mem_table s).2).1 ∧
    (set_mem_table s).2 = s :=
  ⟨rfl, rfl⟩

/-!  Session-trace lemmas for the one-time buffer-count negotiation. -/

theorem runOps_out_length (l : List SessionOp) (s : LibvdaSession) :
    ((runOps l s).2).length = l.length := by
  induction l generalizing s with
  | nil => rfl
  | cons op t ih => cases op <;> simp [runOps, ih]

theorem runOps_append (l1 l2 : List SessionOp) (s : LibvdaSession) :
    runOps (l1 ++ l2) s =
      ((runOps l2 (runOps l1 s).1).1,
       (runOps l1 s).2 ++ (runOps l2 (runOps l1 s).1).2) := by
  induction l1 generalizing s with
  | nil => simp [runOps]
  | cons op t ih => cases op <;> simp [runOps, ih]

/-- The issuance indicator of a `use_output_buffer` step is exactly the
negation of the negotiation flag. -/
theorem use_output_buffer_issued (c f b : Bool) (s : LibvdaSession) :
    (use_output_buffer c f b s).2.1 = ! s.set_output_buffer_count_called := by
  cases hfl : s.set_output_buffer_count_called <;> cases c <;> cases f <;>
    simp [use_output_buffer, hfl]

/-- After a `use_output_buffer` with a succeeding
`set_output_buffer_count` oracle, the flag is set. -/
theorem use_output_buffer_sets_flag (f b : Bool) (s : LibvdaSession) :
    ((use_output_buffer true f b s).1).set_output_buffer_count_called =
      true := by
  cases hfl : s.set_output_buffer_count_called <;> cases f <;>
    simp [use_output_buffer, hfl]

theorem runOps_cons_useBuf (c f b : Bool) (t : List SessionOp)
    (s : LibvdaSession) :
    (runOps (.useBuf c f b :: t) s).2 =
      (! s.set_output_buffer_count_called) ::
        (runOps t (use_output_buffer c f b s).1).2 := by
  simp [runOps, use_output_buffer_issued]

/-- With no `ProvidePictureBuffers` read, a set flag stays set. -/
theorem flag_stays_true (l : List SessionOp) (s : LibvdaSession)
    (h : s.set_output_buffer_count_called = true)
    (hno : ∀ op ∈ l, isPPBRead op = false) :
    ((runOps l s).1).set_output_buffer_count_called = true := by
  induction l generalizing s with
  | nil => exact h
  | cons op t ih =>
    have htail : ∀ o ∈ t, isPPBRead o = false :=
      fun o ho => hno o (List.mem_cons_of_mem _ ho)
    cases op with
    | useBuf c f b =>
      have hstate : (use_output_buffer c f b s).1 = s := by
        cases f <;> simp [use_output_buffer, h]
      simp only [runOps]
      rw [hstate]
      exact ih s h htail
    | readEv ev =>
      have hppb : isPPBRead (.readEv ev) = false :=
        hno _ (List.mem_cons_self _ _)
      have hstate : read_event ev s = s := by
        cases ev with
        | error e => rfl
        | ok e =>
          cases e <;> first
            | rfl
            | (exfalso; simp [isPPBRead] at hppb)
      simp only [runOps]
      rw [hstate]
      exact ih s h htail
    | other =>
      simp only [runOps]
      exact ih s h htail

/-- With no `use_output_buffer` call, an unset flag stays unset. -/
theorem flag_false_no_useBuf (l : List SessionOp) (s : LibvdaSession)
    (h : s.set_output_buffer_count_called = false)
    (hnb : ∀ op ∈ l, isUseBuf op = false) :
    ((runOps l s).1).set_output_buffer_count_called = false := by
  induction l generalizing s with
  | nil => exact h
  | cons op t ih =>
    have htail : ∀ o ∈ t, isUseBuf o = false :=
      fun o ho => hnb o (List.mem_cons_of_mem _ ho)
    cases op with
    | useBuf c f b =>
      exact absurd (hnb _ (List.mem_cons_self _ _)) (by simp [isUseBuf])
    | readEv ev =>
      have hstate : (read_event ev s).set_output_buffer_count_called =
          false := by
        cases ev with
        | error e => exact h
        | ok e => cases e <;> first | exact h | rfl
      simp only [runOps]
      exact ih _ hstate htail
    | other =>
      simp only [runOps]
      exact ih s h htail

/-- C8 (amended): `set_output_buffer_count` is issued at the first
`use_output_buffer` call of a session's history (first conjunct), and,
when an issued call's oracle outcome is a success, at no later
`use_output_buffer` call unless a `ProvidePictureBuffers` event has been
read in between, which re-arms the one-time negotiation (second
conjunct: a later issuance implies a `ProvidePictureBuffers` read in the
span separating the two calls).  A failed `set_output_buffer_count`
leaves the flag unset, so the negotiation is retried. -/
theorem use_output_buffer_negotiation :
    (∀ (l1 : List SessionOp) (op : SessionOp) (l2 : List SessionOp),
      isUseBuf op = true → (∀ o ∈ l1, isUseBuf o = false) →
      (runOps (l1 ++ op :: l2) LibvdaSession.new).2[l1.length]? =
        some true) ∧
    (∀ (l1 l2 l3 : List SessionOp) (f b : Bool) (op2 : SessionOp),
      (runOps (l1 ++ .useBuf true f b :: l2 ++ op2 :: l3)
          LibvdaSession.new).2[l1.length + 1 + l2.length]? = some true →
      ∃ k ∈ l2, isPPBRead k = true) := by
  constructor
  · intro l1 op l2 hop hnb
    rw [runOps_append]
    rw [show l1.length = (runOps l1 LibvdaSession.new).2.length + 0 by
      rw [runOps_out_length]; omega]
    rw [List.getElem?_append_right (Nat.le_add_right _ _)]
    simp only [Nat.add_sub_cancel_left]
    have hflag : ((runOps l1 LibvdaSession.new).1
        ).set_output_buffer_count_called = false :=
      flag_false_no_useBuf l1 LibvdaSession.new rfl hnb
    cases op with
    | useBuf c f b => rw [runOps_cons_useBuf, hflag]; simp
    | readEv ev => simp [isUseBuf] at hop
    | other => simp [isUseBuf] at hop
  · intro l1 l2 l3 f b op2 hiss
    by_contra hno
    push_neg at hno
    simp only [Bool.not_eq_true] at hno
    rw [runOps_append] at hiss
    rw [show l1.length + 1 + l2.length =
        (runOps (l1 ++ SessionOp.useBuf true f b :: l2)
          LibvdaSession.new).2.length + 0 by
      rw [runOps_out_length, List.length_append, List.length_cons];
        omega] at hiss
    rw [List.getElem?_append_right (Nat.le_add_right _ _)] at hiss
    simp only [Nat.add_sub_cancel_left] at hiss
    have hflag2 : ((runOps (l1 ++ SessionOp.useBuf true f b :: l2)
        LibvdaSession.new).1).set_output_buffer_count_called = true := by
      have h0 := flag_stays_true l2
        (use_output_buffer true f b (runOps l1 LibvdaSession.new).1).1
        (use_output_buffer_sets_flag f b _) hno
      rw [runOps_append]
      exact h0
    cases op2 with
    | useBuf c2 f2 b2 =>
      rw [runOps_cons_useBuf, hflag2] at hiss
      simp at hiss
    | readEv ev => simp [runOps] at hiss
    | other => simp [runOps] at hiss

/-- C8 witness: a `ProvidePictureBuffers` read between two issuing
`use_output_buffer` calls is exactly what the second issuance implies. -/
theorem use_output_buffer_negotiation_witness :
    ∃ k ∈ [SessionOp.readEv (.ok (.providePictureBuffers 0 0 0 0 0 0 0))],
      isPPBRead k = true :=
  use_output_buffer_negotiation.2 []
    [SessionOp.readEv (.ok (.providePictureBuffers 0 0 0 0 0 0 0))] []
    true true (.useBuf true true true) (by decide)

/-- C8 counterexample: when the first issued `set_output_buffer_count`
fails, the flag stays unset and the very next `use_output_buffer`
re-issues the call with no `ProvidePictureBuffers` event read in
between, refuting the claim that it is issued exactly once unless
re-armed by such an event. -/
theorem use_output_buffer_reissued_after_failure :
    (runOps [.useBuf false true true, .useBuf true true true]
        LibvdaSession.new).2 = [true, true] ∧
    (∀ op ∈ [SessionOp.useBuf false true true,
        SessionOp.useBuf true true true], isPPBRead op = false) := by
  decide

end Crosvm
